import Mathlib

/-!
Verification of the JobOps job/work-order tracking backend.

This file shallowly embeds the lifecycle, authorization and audit logic of
the repository (apps `ops` and `users`) in Lean 4 and proves the spec's
claims about it.  Each definition mirrors one Python function or model
hook of the source:

* `JobOps.User.save`          — `users/models.py`, `User.save`
* `JobOps.Job.can_complete`   — `ops/models.py`, `Job.can_complete`
* `JobOps.Job.clean`          — `ops/models.py`, `Job.clean`
* `JobOps.Job.save`           — `ops/models.py`, `Job.save`
* `JobOps.JobTask.save`       — `ops/models.py`, `JobTask.save`
* `JobOps.completeJob`        — `ops/views.py`, `JobViewSet.complete`
* `JobOps.updateJob`          — `ops/views.py`, `JobViewSet.perform_update`
                                plus `ops/serializers.py`,
                                `JobUpdateSerializer.validate`
* `JobOps.updateTask`         — `ops/views.py`, `JobTaskViewSet.perform_update`
* `JobOps.check_overdue_jobs` — `ops/tasks.py`, `check_overdue_jobs`
* `JobOps.has_object_permission` — `ops/permissions.py`,
                                `CanUpdateJobProgress.has_object_permission`
* `JobOps.taskGetQueryset`    — `ops/views.py`, `JobTaskViewSet.get_queryset`

Database rows become Lean structures; the reverse foreign-key query
`job.tasks` becomes an explicit `List JobTask` argument holding exactly the
tasks whose `job` field is that job's primary key (for a job without a
primary key this list is necessarily empty, which the theorems carry as a
hypothesis where it matters).  Dates and datetimes become integers /
naturals: only their ordering and nullability matter to the claims.
-/

namespace JobOps

/-- Roles of `users/models.py` (`User.ROLE_CHOICES`). -/
inductive Role
  | admin
  | technician
  | sales_agent
  deriving DecidableEq, Repr

/-- Job statuses of `ops/models.py` (`Job.STATUS_CHOICES`). -/
inductive JobStatus
  | pending
  | in_progress
  | completed
  | cancelled
  deriving DecidableEq, Repr

/-- Task statuses of `ops/models.py` (`JobTask.STATUS_CHOICES`). -/
inductive TaskStatus
  | pending
  | in_progress
  | completed
  deriving DecidableEq, Repr

/-- Job priorities of `ops/models.py` (`Job.PRIORITY_CHOICES`). -/
inductive Priority
  | low
  | medium
  | high
  | urgent
  deriving DecidableEq, Repr

/-- The string stored in a `status` column for a `JobStatus`, as in the
`STATUS_CHOICES` keys. -/
def jobStatusStr : JobStatus → String
  | .pending => "pending"
  | .in_progress => "in_progress"
  | .completed => "completed"
  | .cancelled => "cancelled"

/-- The string stored in a `status` column for a `TaskStatus`. -/
def taskStatusStr : TaskStatus → String
  | .pending => "pending"
  | .in_progress => "in_progress"
  | .completed => "completed"

/-- A row of the `users` table (`users/models.py`, `User`).  Fields not
touched by any claim (email, phone, names) are omitted.  Django compares
model instances by primary key, so users are referenced by `pk`. -/
structure User where
  pk : Nat
  username : String
  role : Role
  is_staff : Bool
  is_active : Bool
  deriving DecidableEq, Repr

/-- The `User.save` override of `users/models.py`: an admin is forced to
staff status before the row is written; no other field is touched. -/
def User.save (u : User) : User :=
  if u.role = Role.admin then { u with is_staff := true } else u

/-- A row of the `job_tasks` table (`ops/models.py`, `JobTask`).
`job` is the owning job's primary key; `created_at` is the auto-set
creation timestamp (a strictly increasing sequence number, so creation
order is its order); `completed_at` is the nullable completion datetime;
`required_equipment` holds the primary keys of the associated equipment. -/
structure JobTask where
  id : Nat
  job : Nat
  title : String
  description : String
  status : TaskStatus
  order : Nat
  required_equipment : List Nat
  completed_at : Option Nat
  created_at : Nat
  deriving DecidableEq, Repr

/-- A row of the `jobs` table (`ops/models.py`, `Job`).  `pk = none` is an
unsaved instance (`self.pk` falsy); `created_by` and `assigned_to` hold the
referenced user's primary key (both nullable); `scheduled_date` is a date
encoded as an integer. -/
structure Job where
  pk : Option Nat
  title : String
  description : String
  client_name : String
  created_by : Option Nat
  assigned_to : Option Nat
  status : JobStatus
  priority : Priority
  scheduled_date : Int
  overdue : Bool
  deriving DecidableEq, Repr

/-- The `Job.can_complete` method of `ops/models.py`: an unsaved job
(`not self.pk`) is vacuously completable; otherwise completable iff the
query `self.tasks.filter(status__in=['pending','in_progress']).exists()`
is false.  `tasks` is the job's reverse foreign-key set.  (The
`except ValueError` branch of the source guards the same unsaved-instance
case and also yields `True`.) -/
def Job.can_complete (j : Job) (tasks : List JobTask) : Bool :=
  if j.pk = none then true
  else !(tasks.any fun t => t.status = TaskStatus.pending ∨ t.status = TaskStatus.in_progress)

/-- The validation message raised by `Job.clean`. -/
def incompleteMsg : String := "Cannot complete job. All tasks must be completed first."

/-- The `Job.clean` method of `ops/models.py`: raises `ValidationError`
when the job is being persisted as `completed` while `can_complete` is
false. -/
def Job.clean (j : Job) (tasks : List JobTask) : Except String Unit :=
  if j.status = JobStatus.completed ∧ ¬ j.can_complete tasks then
    Except.error incompleteMsg
  else
    Except.ok ()

/-- The `Job.save` override of `ops/models.py`: every persistence runs
`full_clean` (hence `clean`) first, so the completion invariant is checked
on every save, not only on explicit complete actions.  On success the row
is written unchanged. -/
def Job.save (j : Job) (tasks : List JobTask) : Except String Job :=
  match j.clean tasks with
  | Except.error e => Except.error e
  | Except.ok () => Except.ok j

/-- The `JobTask.save` override of `ops/models.py`: entering `completed`
with a null `completed_at` stamps it with `now`; being saved in any other
status with a non-null `completed_at` clears it.  (`timezone.now()` is
always a truthy, non-null datetime.) -/
def JobTask.save (now : Nat) (t : JobTask) : JobTask :=
  if t.status = TaskStatus.completed ∧ t.completed_at = none then
    { t with completed_at := some now }
  else if t.status ≠ TaskStatus.completed ∧ t.completed_at ≠ none then
    { t with completed_at := none }
  else
    t

/-- An `{old, new}` pair inside the `changes` JSON of a ChangeLog entry,
as written by `JobViewSet.perform_update` (values are nullable strings:
status strings or usernames). -/
structure FieldDiff where
  old : Option String
  new : Option String
  deriving DecidableEq, Repr

/-- The `changes` JSON payload of a `JobChangeLog` row, one constructor per
shape the source actually writes (`ops/views.py`). -/
inductive LogChanges
  | createdLog (statusMsg title client_name : String)
  | updatedLog (diffs : List (String × FieldDiff))
  | completedLog (statusMsg : String)
  | taskUpdatedLog (task_id : Nat) (task_title : String)
      (old_status new_status : TaskStatus)
  deriving DecidableEq, Repr

/-- A row of the `job_change_logs` table (`ops/models.py`, `JobChangeLog`).
`job` holds the job's primary key (`none` only for an unsaved job, which
cannot occur in the flows below), `user` the acting user's primary key. -/
structure JobChangeLog where
  job : Option Nat
  user : Option Nat
  action : String
  changes : LogChanges
  deriving DecidableEq, Repr

/-- Result of a job-mutating view action: the job row as left in the
database, the ChangeLog rows appended by the action, and the error message
of the HTTP 400 / ValidationError response when the action was rejected.
A rejected action leaves the job unchanged and appends nothing. -/
structure JobActionResult where
  job : Job
  newLogs : List JobChangeLog
  error : Option String
  deriving DecidableEq, Repr

/-- The `complete` action of `JobViewSet` (`ops/views.py`): if
`can_complete` fails, answer 400 with an error and change nothing;
otherwise set `status = completed`, save the job (its `full_clean`
necessarily passes at this point), and append one ChangeLog entry with
action `completed`. -/
def completeJob (actor : Nat) (j : Job) (tasks : List JobTask) : JobActionResult :=
  if ¬ j.can_complete tasks then
    { job := j, newLogs := [], error := some incompleteMsg }
  else
    match Job.save { j with status := JobStatus.completed } tasks with
    | Except.error e => { job := j, newLogs := [], error := some e }
    | Except.ok j' =>
        { job := j'
          newLogs := [{ job := j.pk, user := some actor, action := "completed",
                        changes := LogChanges.completedLog "Job marked as completed" }]
          error := none }

/-- A PATCH/PUT body accepted by `JobUpdateSerializer`
(`ops/serializers.py`): any subset of its writable fields.  `assigned_to`
can itself be set to null, hence the nested option. -/
structure JobPatch where
  title : Option String
  description : Option String
  client_name : Option String
  assigned_to : Option (Option Nat)
  status : Option JobStatus
  priority : Option Priority
  scheduled_date : Option Int
  deriving DecidableEq, Repr

/-- The patch with no field present. -/
def JobPatch.empty : JobPatch :=
  { title := none, description := none, client_name := none,
    assigned_to := none, status := none, priority := none,
    scheduled_date := none }

/-- Application of a validated `JobPatch` to a job row, as
`serializer.save()` does field by field. -/
def applyJobPatch (j : Job) (p : JobPatch) : Job :=
  { j with
    title := p.title.getD j.title
    description := p.description.getD j.description
    client_name := p.client_name.getD j.client_name
    assigned_to := p.assigned_to.getD j.assigned_to
    status := p.status.getD j.status
    priority := p.priority.getD j.priority
    scheduled_date := p.scheduled_date.getD j.scheduled_date }

/-- The `JobUpdateSerializer.validate` hook (`ops/serializers.py`): the
target status is `attrs.get('status', instance.status)`; moving to (or
staying at) `completed` while the instance fails `can_complete` raises a
`ValidationError` before anything is written. -/
def validateJobUpdate (j : Job) (tasks : List JobTask) (p : JobPatch) : Except String Unit :=
  if p.status.getD j.status = JobStatus.completed ∧ ¬ j.can_complete tasks then
    Except.error incompleteMsg
  else
    Except.ok ()

/-- The diff `JobViewSet.perform_update` computes between the old and the
saved instance: exactly the fields `status` and `assigned_to` are
compared; `assigned_to` values are logged as usernames resolved through
`uname`. -/
def trackedDiffs (uname : Nat → String) (old new : Job) : List (String × FieldDiff) :=
  (if old.status ≠ new.status then
    [("status", { old := some (jobStatusStr old.status),
                  new := some (jobStatusStr new.status) })]
  else []) ++
  (if old.assigned_to ≠ new.assigned_to then
    [("assigned_to", { old := old.assigned_to.map uname,
                       new := new.assigned_to.map uname })]
  else [])

/-- The update flow of `JobViewSet` (`ops/views.py`, `perform_update`,
with `JobUpdateSerializer.validate` run first by `serializer.save()`):
validation failure rejects the request in full; otherwise the patch is
applied, the job saved (running `Job.save`'s own `full_clean`), the
tracked fields diffed, and a ChangeLog entry with action `updated` is
appended iff some tracked field changed. -/
def updateJob (uname : Nat → String) (actor : Nat) (j : Job) (tasks : List JobTask)
    (p : JobPatch) : JobActionResult :=
  match validateJobUpdate j tasks p with
  | Except.error e => { job := j, newLogs := [], error := some e }
  | Except.ok () =>
    match Job.save (applyJobPatch j p) tasks with
    | Except.error e => { job := j, newLogs := [], error := some e }
    | Except.ok j' =>
        let diffs := trackedDiffs uname j j'
        { job := j'
          newLogs :=
            if diffs = [] then []
            else [{ job := j'.pk, user := some actor, action := "updated",
                    changes := LogChanges.updatedLog diffs }]
          error := none }

/-- A PATCH/PUT body accepted by `JobTaskSerializer` for updates
(`ops/serializers.py`): only `id`, `completed_at` and the timestamps are
in `read_only_fields`, so `job` (the owning job) is writable too — a task
can be reassigned to another job through this flow. -/
structure TaskPatch where
  job : Option Nat
  title : Option String
  description : Option String
  status : Option TaskStatus
  order : Option Nat
  required_equipment : Option (List Nat)
  deriving DecidableEq, Repr

/-- The task patch with no field present. -/
def TaskPatch.empty : TaskPatch :=
  { job := none, title := none, description := none, status := none,
    order := none, required_equipment := none }

/-- Application of a validated `TaskPatch` to a task row. -/
def applyTaskPatch (t : JobTask) (p : TaskPatch) : JobTask :=
  { t with
    job := p.job.getD t.job
    title := p.title.getD t.title
    description := p.description.getD t.description
    status := p.status.getD t.status
    order := p.order.getD t.order
    required_equipment := p.required_equipment.getD t.required_equipment }

/-- Result of the task update flow: the task row as saved and the
ChangeLog rows appended to the owning job. -/
structure TaskActionResult where
  task : JobTask
  newLogs : List JobChangeLog
  deriving DecidableEq, Repr

/-- The update flow of `JobTaskViewSet` (`ops/views.py`,
`perform_update`): remember the old status, apply the patch and save the
task (running `JobTask.save`'s `completed_at` hook), then append a
ChangeLog entry with action `task_updated` on the owning job iff the
status changed.  The payload carries the task's id, its (post-save) title
and the old and new status, as the source's `changes` dict does. -/
def updateTask (now actor : Nat) (t : JobTask) (p : TaskPatch) : TaskActionResult :=
  let old_status := t.status
  let t' := JobTask.save now (applyTaskPatch t p)
  if old_status ≠ t'.status then
    { task := t'
      newLogs := [{ job := some t'.job, user := some actor, action := "task_updated",
                    changes := LogChanges.taskUpdatedLog t'.id t'.title old_status t'.status }] }
  else
    { task := t', newLogs := [] }

/-- The filter of the `check_overdue_jobs` queryset (`ops/tasks.py`):
`scheduled_date < today`, `status ∈ {pending, in_progress}`,
`overdue = False`. -/
def overdueFilter (today : Int) (j : Job) : Bool :=
  j.scheduled_date < today ∧
  (j.status = JobStatus.pending ∨ j.status = JobStatus.in_progress) ∧
  j.overdue = false

/-- The database state the sweep runs over: all job rows and all ChangeLog
rows. -/
structure OpsDb where
  jobs : List Job
  logs : List JobChangeLog
  deriving Repr

/-- The periodic sweep `check_overdue_jobs` of `ops/tasks.py`: the bulk
`UPDATE` sets `overdue = True` on exactly the rows matching
`overdueFilter` and returns the number of rows updated (the source wraps
that count in a log message string).  It touches no other table — in
particular it writes no ChangeLog row. -/
def check_overdue_jobs (today : Int) (db : OpsDb) : OpsDb × Nat :=
  ({ jobs := db.jobs.map fun j =>
       if overdueFilter today j then { j with overdue := true } else j
     logs := db.logs },
   (db.jobs.filter (overdueFilter today)).length)

/-- The object a `CanUpdateJobProgress` object-permission check receives:
either a `Job` row (which `hasattr(obj, 'assigned_to')`), or a `JobTask`
row together with its owning `Job` row (a task has no `assigned_to`
attribute but `hasattr(obj, 'job')`). -/
inductive PermTarget
  | jobT (j : Job)
  | taskT (t : JobTask) (owningJob : Job)
  deriving Repr

/-- The `has_object_permission` method of `CanUpdateJobProgress`
(`ops/permissions.py`).  `safeMethod` is `request.method in SAFE_METHODS`.
Branches mirror the source: safe methods pass; admins pass; a `Job` target
is checked against its own `assigned_to` / `created_by`; a `JobTask`
target against its owning job's; everything else returns `False`.
User comparison is by primary key, as Django model equality is. -/
def has_object_permission (safeMethod : Bool) (u : User) (obj : PermTarget) : Bool :=
  if safeMethod then true
  else if u.role = Role.admin then true
  else
    match obj with
    | PermTarget.jobT j =>
        if u.role = Role.technician then j.assigned_to = some u.pk
        else if u.role = Role.sales_agent then j.created_by = some u.pk
        else false
    | PermTarget.taskT _ oj =>
        if u.role = Role.technician then oj.assigned_to = some u.pk
        else if u.role = Role.sales_agent then oj.created_by = some u.pk
        else false

/-- The `get_queryset` of `JobTaskViewSet` (`ops/views.py`): rows are
tasks joined with their owning job (`select_related('job')`).  Optional
`job` and `status` query parameters filter first; then, for a technician,
rows are restricted to `job__assigned_to = request.user`; every other role
keeps the full queryset. -/
def taskGetQueryset (u : User) (jobFilter : Option Nat) (statusFilter : Option TaskStatus)
    (rows : List (JobTask × Job)) : List (JobTask × Job) :=
  let q := match jobFilter with
    | some jid => rows.filter fun r => r.1.job = jid
    | none => rows
  let q := match statusFilter with
    | some s => q.filter fun r => r.1.status = s
    | none => q
  if u.role = Role.technician then
    q.filter fun r => r.2.assigned_to = some u.pk
  else q

/-- The model-level default ordering relation of `JobTask.Meta.ordering =
['order', 'created_at']`: by `order` ascending, creation time ascending as
tie-break. -/
def metaLe (a b : JobTask) : Prop :=
  a.order < b.order ∨ (a.order = b.order ∧ a.created_at ≤ b.created_at)

instance : DecidableRel metaLe := fun a b =>
  inferInstanceAs (Decidable (a.order < b.order ∨ (a.order = b.order ∧ a.created_at ≤ b.created_at)))

instance : IsTotal JobTask metaLe := by
  constructor; intro a b; unfold metaLe; omega

instance : IsTrans JobTask metaLe := by
  constructor; intro a b c; unfold metaLe; omega

/-- The ordering relation the `JobTaskViewSet` list endpoint actually
applies: its `OrderingFilter` default is `ordering = ['order']`, which
calls `queryset.order_by('order')` and thereby replaces the model's
`Meta.ordering` entirely — the SQL orders by `order` alone. -/
def orderOnlyLe (a b : JobTask) : Prop :=
  a.order ≤ b.order

instance : DecidableRel orderOnlyLe := fun a b =>
  inferInstanceAs (Decidable (a.order ≤ b.order))

instance : IsTotal JobTask orderOnlyLe := by
  constructor; intro a b; unfold orderOnlyLe; omega

instance : IsTrans JobTask orderOnlyLe := by
  constructor; intro a b c; unfold orderOnlyLe; omega

/-- A task listing read under the model's default `Meta.ordering`
(`['order', 'created_at']`), e.g. the nested `tasks` list serialized on a
Job or the dashboard's `job.tasks` iteration: the rows sorted by
`(order, created_at)`.  `rows` is the physical row order of the table,
which SQL does not promise to follow creation time; a stable sort over it
realizes one outcome the database is allowed to return. -/
def metaOrderedTasks (rows : List JobTask) : List JobTask :=
  List.insertionSort metaLe rows

/-- The `JobTaskViewSet` list read with no `ordering` query parameter: the
rows sorted by `order` alone (`order_by('order')`).  Rows with equal
`order` stay in the database's physical row order, which SQL leaves
unspecified — modelled by a stable sort over the arbitrary physical row
list `rows`. -/
def viewsetListTasks (rows : List JobTask) : List JobTask :=
  List.insertionSort orderOnlyLe rows

/-- Whether a task listing satisfies the spec's ordering rule: each
adjacent pair is ordered by `order` ascending with `created_at` ascending
as tie-break. -/
def creationTieBreakOrdered (l : List JobTask) : Prop :=
  List.Chain' metaLe l

instance : DecidablePred creationTieBreakOrdered := fun l =>
  inferInstanceAs (Decidable (List.Chain' metaLe l))

/-- A sample admin user (concrete row used by witnesses). -/
def uAdminW : User :=
  { pk := 1, username := "alice", role := Role.admin, is_staff := false, is_active := true }

/-- A sample technician user. -/
def uTechW : User :=
  { pk := 2, username := "bob", role := Role.technician, is_staff := false, is_active := true }

/-- A sample sales agent user. -/
def uSalesW : User :=
  { pk := 3, username := "carol", role := Role.sales_agent, is_staff := false, is_active := true }

/-- A sample persisted pending job, created by the sales agent and assigned
to the technician. -/
def jW : Job :=
  { pk := some 1, title := "Install boiler", description := "install",
    client_name := "Acme", created_by := some 3, assigned_to := some 2,
    status := JobStatus.pending, priority := Priority.medium,
    scheduled_date := 10, overdue := false }

/-- A sample pending task of `jW`. -/
def tPendingW : JobTask :=
  { id := 1, job := 1, title := "unpack", description := "", status := TaskStatus.pending,
    order := 0, required_equipment := [], completed_at := none, created_at := 1 }

/-- A sample completed task of `jW`. -/
def tDoneW : JobTask :=
  { id := 2, job := 1, title := "fit", description := "", status := TaskStatus.completed,
    order := 1, required_equipment := [], completed_at := some 5, created_at := 2 }

/-- C4: after any `JobTask.save`, `completed_at` is non-null iff the status
is `completed`; a save entering `completed` with `completed_at` previously
null stamps it with the current time; a save in any non-`completed` status
leaves `completed_at` null. -/
theorem C4_task_completed_at_invariant (now : Nat) (t : JobTask) :
    ((JobTask.save now t).completed_at ≠ none ↔
        (JobTask.save now t).status = TaskStatus.completed)
    ∧ (t.status = TaskStatus.completed → t.completed_at = none →
        (JobTask.save now t).completed_at = some now)
    ∧ ((JobTask.save now t).status ≠ TaskStatus.completed →
        (JobTask.save now t).completed_at = none) := by
  by_cases h1 : t.status = TaskStatus.completed <;>
    by_cases h2 : t.completed_at = none
  · simp [JobTask.save, h1, h2]
  · cases hc : t.completed_at with
    | none => exact absurd hc h2
    | some v => simp [JobTask.save, h1, hc]
  · simp [JobTask.save, h1, h2]
  · simp [JobTask.save, h1, h2]

theorem C4_witness :
    tPendingW.status ≠ TaskStatus.completed ∧
    (JobTask.save 7 { tPendingW with status := TaskStatus.completed }).completed_at = some 7 := by
  refine ⟨by decide, ?_⟩
  exact (C4_task_completed_at_invariant 7
    { tPendingW with status := TaskStatus.completed }).2.1 rfl rfl

/-- C10: saving a user whose role is `admin` forces `is_staff = true`;
saving a user of any other role leaves `is_staff` exactly as it was (it is
never cleared), so a former admin still has `is_staff = true` after any
later save under a different role. -/
theorem C10_admin_staff_flag (u : User) :
    (u.role = Role.admin → (User.save u).is_staff = true)
    ∧ (u.role ≠ Role.admin → (User.save u).is_staff = u.is_staff)
    ∧ (u.role = Role.admin → ∀ r : Role,
        (User.save { User.save u with role := r }).is_staff = true) := by
  refine ⟨fun h => by simp [User.save, h], fun h => by simp [User.save, h], fun h r => ?_⟩
  by_cases hr : r = Role.admin <;> simp [User.save, h, hr]

theorem C10_witness :
    uAdminW.role = Role.admin ∧
    (User.save { User.save uAdminW with role := Role.technician }).is_staff = true :=
  ⟨rfl, (C10_admin_staff_flag uAdminW).2.2 rfl Role.technician⟩

/-- C9: in the task-listing read, a technician sees exactly the rows of
tasks whose owning job is assigned to them, while any user of another role
(in particular a sales agent) sees every row — no restriction to jobs the
agent created. -/
theorem C9_task_list_role_filter (u : User) (rows : List (JobTask × Job)) :
    (u.role = Role.technician →
        taskGetQueryset u none none rows =
          rows.filter fun r => r.2.assigned_to = some u.pk)
    ∧ (u.role ≠ Role.technician → taskGetQueryset u none none rows = rows) :=
  ⟨fun h => by simp [taskGetQueryset, h], fun h => by simp [taskGetQueryset, h]⟩

theorem C9_witness :
    uSalesW.role ≠ Role.technician ∧
    taskGetQueryset uSalesW none none [(tPendingW, jW)] = [(tPendingW, jW)] :=
  ⟨by decide, (C9_task_list_role_filter uSalesW [(tPendingW, jW)]).2 (by decide)⟩

/-- Characterisation of `can_complete = false` for a job whose reverse
foreign-key set is consistent (an unsaved job owns no tasks): completion is
blocked exactly when some owned task is still pending or in progress. -/
theorem can_complete_eq_false_iff (j : Job) (tasks : List JobTask)
    (hrel : j.pk = none → tasks = []) :
    j.can_complete tasks = false ↔
      ∃ t ∈ tasks, t.status = TaskStatus.pending ∨ t.status = TaskStatus.in_progress := by
  unfold Job.can_complete
  by_cases hpk : j.pk = none
  · simp [hpk, hrel hpk]
  · simp [hpk, List.any_eq_true]

/-- A job that passes `can_complete` (with a consistent reverse
foreign-key set) has only completed tasks. -/
theorem can_complete_eq_true_all (j : Job) (tasks : List JobTask)
    (hrel : j.pk = none → tasks = []) :
    j.can_complete tasks = true → ∀ t ∈ tasks, t.status = TaskStatus.completed := by
  intro h t ht
  by_cases hpk : j.pk = none
  · rw [hrel hpk] at ht
    cases ht
  · unfold Job.can_complete at h
    simp [hpk, List.any_eq_true] at h
    have ht' := h t ht
    cases hs : t.status with
    | pending => exact absurd hs ht'.1
    | in_progress => exact absurd hs ht'.2
    | completed => rfl

/-- C1: `Job.save` rejects (via `full_clean`) exactly the persistences of
a job in status `completed` that still owns a pending or in-progress task
— whatever triggered the save — so any job row that `Job.save` lets
through in status `completed` has only completed tasks; a job with zero
tasks, or one without a persisted identity (which can own no tasks),
passes vacuously. -/
theorem C1_completed_save_gate (j : Job) (tasks : List JobTask)
    (hrel : j.pk = none → tasks = []) :
    ((Job.save j tasks).isOk = false ↔
        j.status = JobStatus.completed ∧
        ∃ t ∈ tasks, t.status = TaskStatus.pending ∨ t.status = TaskStatus.in_progress)
    ∧ (∀ j', Job.save j tasks = Except.ok j' → j'.status = JobStatus.completed →
        ∀ t ∈ tasks, t.status = TaskStatus.completed) := by
  have hcc := can_complete_eq_false_iff j tasks hrel
  by_cases h : j.status = JobStatus.completed ∧ ¬ j.can_complete tasks
  · have hsave : Job.save j tasks = Except.error incompleteMsg := by
      unfold Job.save Job.clean
      rw [if_pos h]
    refine ⟨?_, ?_⟩
    · rw [hsave]
      constructor
      · intro _
        exact ⟨h.1, hcc.mp (by simpa using h.2)⟩
      · intro _
        rfl
    · intro j' hs
      rw [hsave] at hs
      cases hs
  · have hsave : Job.save j tasks = Except.ok j := by
      unfold Job.save Job.clean
      rw [if_neg h]
    refine ⟨?_, ?_⟩
    · rw [hsave]
      constructor
      · intro hfalse
        simp [Except.toBool] at hfalse
      · rintro ⟨hst, hex⟩
        exact absurd ⟨hst, by simp [hcc.mpr hex]⟩ h
    · intro j' hs hst t ht
      rw [hsave] at hs
      cases hs
      rcases not_and_or.mp h with hs' | hc
      · exact absurd hst hs'
      · exact can_complete_eq_true_all j tasks hrel (by simpa using not_not.mp hc) t ht

theorem C1_witness :
    (jW.pk = none → [tPendingW] = []) ∧
    (Job.save { jW with status := JobStatus.completed } [tPendingW]).isOk = false ∧
    (Job.save { jW with status := JobStatus.completed } [tDoneW]).isOk = true := by
  refine ⟨fun h => by simp [jW] at h, ?_, ?_⟩
  · exact (C1_completed_save_gate { jW with status := JobStatus.completed } [tPendingW]
      (fun h => by simp [jW] at h)).1.mpr ⟨rfl, tPendingW, by simp, Or.inl rfl⟩
  · decide

/-- The spec's view of a write target's `assigned_to`: a Task target is
resolved through its owning Job. -/
def targetAssignedTo : PermTarget → Option Nat
  | PermTarget.jobT j => j.assigned_to
  | PermTarget.taskT _ oj => oj.assigned_to

/-- The spec's view of a write target's `created_by`, likewise resolved
through the owning Job for a Task target. -/
def targetCreatedBy : PermTarget → Option Nat
  | PermTarget.jobT j => j.created_by
  | PermTarget.taskT _ oj => oj.created_by

/-- C2: the object-level authorization predicate grants access exactly as
the spec states — reads (safe methods) unconditionally; writes iff the
actor is an admin, or a technician matching the target's (resolved)
`assigned_to`, or a sales agent matching the target's (resolved)
`created_by`; every other combination is denied. -/
theorem C2_object_permission (safeMethod : Bool) (u : User) (obj : PermTarget) :
    has_object_permission safeMethod u obj = true ↔
      (safeMethod = true ∨
       u.role = Role.admin ∨
       (u.role = Role.technician ∧ targetAssignedTo obj = some u.pk) ∨
       (u.role = Role.sales_agent ∧ targetCreatedBy obj = some u.pk)) := by
  cases obj with
  | jobT j =>
    cases safeMethod <;> cases hr : u.role <;>
      simp [has_object_permission, targetAssignedTo, targetCreatedBy, hr]
  | taskT t oj =>
    cases safeMethod <;> cases hr : u.role <;>
      simp [has_object_permission, targetAssignedTo, targetCreatedBy, hr]

/-- C3: the `complete` action on a job still owning a pending task fails
with the incomplete-tasks error, leaves the job row untouched and appends
no ChangeLog entry (in particular none with action `completed`); on a job
owning zero tasks it succeeds, sets the status to `completed` and appends
exactly the one ChangeLog entry with action `completed`. -/
theorem C3_complete_job_scenarios (actor : Nat) (j : Job) (tasks : List JobTask)
    (hrel : j.pk = none → tasks = []) :
    ((∃ t ∈ tasks, t.status = TaskStatus.pending) →
        completeJob actor j tasks = { job := j, newLogs := [], error := some incompleteMsg })
    ∧ (tasks = [] →
        completeJob actor j tasks =
          { job := { j with status := JobStatus.completed }
            newLogs := [{ job := j.pk, user := some actor, action := "completed",
                          changes := LogChanges.completedLog "Job marked as completed" }]
            error := none }) := by
  constructor
  · rintro ⟨t, ht, hp⟩
    have hcc : j.can_complete tasks = false :=
      (can_complete_eq_false_iff j tasks hrel).mpr ⟨t, ht, Or.inl hp⟩
    unfold completeJob
    rw [if_pos (by simp [hcc])]
  · intro hnil
    subst hnil
    have hcc : j.can_complete [] = true := by
      unfold Job.can_complete
      by_cases hpk : j.pk = none <;> simp [hpk]
    have hsave : Job.save { j with status := JobStatus.completed } [] = Except.ok { j with status := JobStatus.completed } := by
      unfold Job.save Job.clean
      rw [if_neg]
      rintro ⟨_, hnc⟩
      exact hnc (by unfold Job.can_complete at hcc ⊢; by_cases hpk : j.pk = none <;> simp [hpk] at hcc ⊢)
    unfold completeJob
    rw [if_neg (by simp [hcc]), hsave]

theorem C3_witness :
    (jW.pk = none → [tPendingW] = []) ∧
    completeJob 9 jW [tPendingW] = { job := jW, newLogs := [], error := some incompleteMsg } ∧
    completeJob 9 jW [] =
      { job := { jW with status := JobStatus.completed }
        newLogs := [{ job := jW.pk, user := some 9, action := "completed",
                      changes := LogChanges.completedLog "Job marked as completed" }]
        error := none } := by
  refine ⟨fun h => by simp [jW] at h, ?_, ?_⟩
  · exact (C3_complete_job_scenarios 9 jW [tPendingW]
      (fun h => by simp [jW] at h)).1 ⟨tPendingW, by simp, rfl⟩
  · exact (C3_complete_job_scenarios 9 jW []
      (fun h => by simp [jW] at h)).2 rfl

/-- The tracked diff is empty exactly when neither `status` nor
`assigned_to` changed. -/
theorem trackedDiffs_eq_nil_iff (uname : Nat → String) (old new : Job) :
    trackedDiffs uname old new = [] ↔
      (old.status = new.status ∧ old.assigned_to = new.assigned_to) := by
  unfold trackedDiffs
  by_cases h1 : old.status = new.status <;>
    by_cases h2 : old.assigned_to = new.assigned_to <;> simp [h1, h2]

/-- `can_complete` looks only at the primary key and the task set, so a
field patch does not affect it. -/
theorem can_complete_applyJobPatch (j : Job) (p : JobPatch) (tasks : List JobTask) :
    (applyJobPatch j p).can_complete tasks = j.can_complete tasks := by
  unfold Job.can_complete applyJobPatch
  rfl

/-- C5: a job update whose patch sets `status = completed` while the job
fails `can_complete` is rejected in full — the job row keeps every old
field and no ChangeLog entry is appended; a successful update applies
exactly the patch, and appends one ChangeLog entry with action `updated`
holding an `{old, new}` diff per changed tracked field (`status`,
`assigned_to` — nothing else is diffed) iff at least one of the two
changed. -/
theorem C5_update_job (uname : Nat → String) (actor : Nat) (j : Job)
    (tasks : List JobTask) (p : JobPatch) :
    (p.status = some JobStatus.completed → j.can_complete tasks = false →
        updateJob uname actor j tasks p = { job := j, newLogs := [], error := some incompleteMsg })
    ∧ (∀ r, updateJob uname actor j tasks p = r → r.error = none →
        r.job = applyJobPatch j p
        ∧ (r.newLogs = [] ↔ (j.status = r.job.status ∧ j.assigned_to = r.job.assigned_to))
        ∧ (r.newLogs ≠ [] →
            r.newLogs = [{ job := r.job.pk, user := some actor, action := "updated",
                           changes := LogChanges.updatedLog (trackedDiffs uname j r.job) }])) := by
  constructor
  · intro hp hcc
    have hval : validateJobUpdate j tasks p = Except.error incompleteMsg := by
      unfold validateJobUpdate
      exact if_pos ⟨by rw [hp]; rfl, by simp [hcc]⟩
    unfold updateJob
    rw [hval]
  · intro r hr herr
    by_cases hv : p.status.getD j.status = JobStatus.completed ∧ ¬ j.can_complete tasks
    · have hval : validateJobUpdate j tasks p = Except.error incompleteMsg := by
        unfold validateJobUpdate
        exact if_pos hv
      unfold updateJob at hr
      rw [hval] at hr
      rw [← hr] at herr
      simp at herr
    · have hval : validateJobUpdate j tasks p = Except.ok () := by
        unfold validateJobUpdate
        exact if_neg hv
      have hsave : Job.save (applyJobPatch j p) tasks = Except.ok (applyJobPatch j p) := by
        unfold Job.save Job.clean
        rw [if_neg]
        rintro ⟨hst, hnc⟩
        rw [can_complete_applyJobPatch] at hnc
        exact hv ⟨hst, hnc⟩
      have hupd : updateJob uname actor j tasks p =
          { job := applyJobPatch j p
            newLogs :=
              if trackedDiffs uname j (applyJobPatch j p) = [] then []
              else [{ job := (applyJobPatch j p).pk, user := some actor, action := "updated",
                      changes := LogChanges.updatedLog (trackedDiffs uname j (applyJobPatch j p)) }]
            error := none } := by
        unfold updateJob
        rw [hval, hsave]
      rw [hupd] at hr
      subst hr
      refine ⟨rfl, ?_, ?_⟩
      · by_cases hd : trackedDiffs uname j (applyJobPatch j p) = []
        · simp only [hd, if_pos]
          simpa using (trackedDiffs_eq_nil_iff uname j (applyJobPatch j p)).mp hd
        · simp only [hd, if_neg, if_false]
          constructor
          · intro hbad
            simp at hbad
          · intro hsame
            exact absurd ((trackedDiffs_eq_nil_iff uname j (applyJobPatch j p)).mpr hsame) hd
      · by_cases hd : trackedDiffs uname j (applyJobPatch j p) = []
        · intro hbad
          simp [hd] at hbad
        · intro _
          simp [hd]

theorem C5_witness :
    ({ JobPatch.empty with status := some JobStatus.completed } : JobPatch).status
        = some JobStatus.completed ∧
    jW.can_complete [tPendingW] = false ∧
    updateJob (fun _ => "u") 9 jW [tPendingW]
        { JobPatch.empty with status := some JobStatus.completed } =
      { job := jW, newLogs := [], error := some incompleteMsg } := by
  refine ⟨rfl, by decide, ?_⟩
  exact (C5_update_job (fun _ => "u") 9 jW [tPendingW]
    { JobPatch.empty with status := some JobStatus.completed }).1 rfl (by decide)

/-- The sweep's row filter, read back as a proposition. -/
theorem overdueFilter_eq_true_iff (today : Int) (j : Job) :
    overdueFilter today j = true ↔
      (j.scheduled_date < today ∧
       (j.status = JobStatus.pending ∨ j.status = JobStatus.in_progress) ∧
       j.overdue = false) := by
  unfold overdueFilter
  simp

/-- A row the sweep just processed never matches the filter again: flagged
rows now have `overdue = true`, untouched rows did not match already. -/
theorem overdueFilter_after_flag (today : Int) (j : Job) :
    overdueFilter today (if overdueFilter today j then { j with overdue := true } else j)
      = false := by
  by_cases h : overdueFilter today j
  · rw [if_pos h]
    unfold overdueFilter
    simp
  · rw [if_neg h]
    simpa using h

/-- C6: the sweep sets `overdue = true` on exactly the jobs with
`scheduled_date < today`, status pending or in progress and `overdue`
still false, touching no other row and no other field; the ChangeLog
table is untouched; the returned count is the number of rows updated; and
an immediate second run updates zero rows. -/
theorem C6_overdue_sweep (today : Int) (db : OpsDb) :
    ((check_overdue_jobs today db).1.jobs =
        db.jobs.map fun j =>
          if j.scheduled_date < today ∧
             (j.status = JobStatus.pending ∨ j.status = JobStatus.in_progress) ∧
             j.overdue = false
          then { j with overdue := true } else j)
    ∧ (check_overdue_jobs today db).1.logs = db.logs
    ∧ (check_overdue_jobs today db).2 = (db.jobs.filter (overdueFilter today)).length
    ∧ (check_overdue_jobs today (check_overdue_jobs today db).1).2 = 0 := by
  refine ⟨?_, rfl, rfl, ?_⟩
  · unfold check_overdue_jobs
    simp only []
    apply List.map_congr_left
    intro j _
    by_cases h : overdueFilter today j
    · rw [if_pos h, if_pos ((overdueFilter_eq_true_iff today j).mp h)]
    · rw [if_neg h, if_neg]
      intro hc
      exact h ((overdueFilter_eq_true_iff today j).mpr hc)
  · have hall : ∀ x ∈ (check_overdue_jobs today db).1.jobs, ¬ overdueFilter today x = true := by
      intro x hx
      unfold check_overdue_jobs at hx
      simp only [List.mem_map] at hx
      obtain ⟨jj, _, hxeq⟩ := hx
      rw [← hxeq]
      simp [overdueFilter_after_flag]
    have hnil : (check_overdue_jobs today db).1.jobs.filter (overdueFilter today) = [] :=
      List.filter_eq_nil_iff.mpr hall
    unfold check_overdue_jobs
    unfold check_overdue_jobs at hnil
    simp only [] at hnil ⊢
    rw [hnil]
    rfl

/-- `JobTask.save` writes only `completed_at`: status, id, owning job and
title pass through untouched. -/
theorem JobTask.save_only_completed_at (now : Nat) (t : JobTask) :
    (JobTask.save now t).status = t.status
    ∧ (JobTask.save now t).id = t.id
    ∧ (JobTask.save now t).job = t.job
    ∧ (JobTask.save now t).title = t.title := by
  unfold JobTask.save
  split_ifs <;> exact ⟨rfl, rfl, rfl, rfl⟩

/-- A task row already satisfying the `completed_at` invariant is a fixed
point of `JobTask.save`. -/
theorem JobTask.save_fix (now : Nat) (t : JobTask)
    (hinv : t.completed_at ≠ none ↔ t.status = TaskStatus.completed) :
    JobTask.save now t = t := by
  unfold JobTask.save
  by_cases h1 : t.status = TaskStatus.completed
  · have hne : t.completed_at ≠ none := hinv.mpr h1
    rw [if_neg (fun hc => hne hc.2), if_neg (fun hc => hc.1 h1)]
  · have hnone : t.completed_at = none := by
      by_contra hne
      exact h1 (hinv.mp hne)
    rw [if_neg (fun hc => h1 hc.1), if_neg (fun hc => hc.2 hnone)]

/-- C7: updating a task without changing its status (for a task row
satisfying the persisted `completed_at` invariant) appends no ChangeLog
entry and leaves `completed_at` unchanged; in general the flow appends a
`task_updated` entry on the task's owning job as saved (`task.job` after
`serializer.save()`, so the new owner if the patch reassigned the task)
carrying the task id, its post-save title and the old and new status,
exactly when the status actually changed. -/
theorem C7_task_update_changelog (now actor : Nat) (t : JobTask)
    (hinv : t.completed_at ≠ none ↔ t.status = TaskStatus.completed) :
    (∀ p : TaskPatch, p.status.getD t.status = t.status →
        (updateTask now actor t p).newLogs = []
        ∧ (updateTask now actor t p).task.completed_at = t.completed_at)
    ∧ (∀ p : TaskPatch,
        ((updateTask now actor t p).newLogs ≠ [] ↔ (applyTaskPatch t p).status ≠ t.status)
        ∧ ((applyTaskPatch t p).status ≠ t.status →
            (updateTask now actor t p).newLogs =
              [{ job := some (applyTaskPatch t p).job, user := some actor,
                 action := "task_updated",
                 changes := LogChanges.taskUpdatedLog t.id (applyTaskPatch t p).title
                   t.status (applyTaskPatch t p).status }])) := by
  constructor
  · intro p hp
    have happ : (applyTaskPatch t p).status = t.status := hp
    have hinv' : (applyTaskPatch t p).completed_at ≠ none ↔
        (applyTaskPatch t p).status = TaskStatus.completed := by
      rw [happ]
      exact hinv
    have hfix := JobTask.save_fix now (applyTaskPatch t p) hinv'
    have hres : updateTask now actor t p = { task := applyTaskPatch t p, newLogs := [] } := by
      simp only [updateTask, hfix]
      rw [if_neg (fun hne => hne happ.symm)]
    constructor
    · rw [hres]
    · rw [hres]
      simp [applyTaskPatch]
  · intro p
    have hs := JobTask.save_only_completed_at now (applyTaskPatch t p)
    by_cases h : (applyTaskPatch t p).status = t.status
    · have h' : ¬ t.status ≠ (JobTask.save now (applyTaskPatch t p)).status := by
        simp [hs.1, h]
      have hres : updateTask now actor t p =
          { task := JobTask.save now (applyTaskPatch t p), newLogs := [] } := by
        simp only [updateTask]
        rw [if_neg h']
      constructor
      · constructor
        · intro hne
          rw [hres] at hne
          simp at hne
        · intro hne
          exact absurd h hne
      · intro hne
        exact absurd h hne
    · have h' : t.status ≠ (JobTask.save now (applyTaskPatch t p)).status := by
        rw [hs.1]
        exact fun he => h he.symm
      have hres : updateTask now actor t p =
          { task := JobTask.save now (applyTaskPatch t p)
            newLogs := [{ job := some (applyTaskPatch t p).job, user := some actor,
                          action := "task_updated",
                          changes := LogChanges.taskUpdatedLog t.id (applyTaskPatch t p).title
                            t.status (applyTaskPatch t p).status }] } := by
        simp only [updateTask]
        rw [if_pos h', hs.1, hs.2.1, hs.2.2.1, hs.2.2.2]
        simp [applyTaskPatch]
      constructor
      · constructor
        · intro _
          exact h
        · intro _
          rw [hres]
          simp
      · intro _
        rw [hres]

theorem C7_witness :
    (tDoneW.completed_at ≠ none ↔ tDoneW.status = TaskStatus.completed) ∧
    (updateTask 7 9 tDoneW TaskPatch.empty).newLogs = [] ∧
    (updateTask 7 9 tDoneW TaskPatch.empty).task.completed_at = tDoneW.completed_at := by
  refine ⟨by decide, ?_, ?_⟩
  · exact ((C7_task_update_changelog 7 9 tDoneW (by decide)).1 TaskPatch.empty rfl).1
  · exact ((C7_task_update_changelog 7 9 tDoneW (by decide)).1 TaskPatch.empty rfl).2

/-- A task created first (creation timestamp 1) with `order = 0`. -/
def tTieEarlyW : JobTask :=
  { id := 3, job := 1, title := "early", description := "", status := TaskStatus.pending,
    order := 0, required_equipment := [], completed_at := none, created_at := 1 }

/-- A task created second (creation timestamp 2) with the same `order = 0`. -/
def tTieLateW : JobTask :=
  { id := 4, job := 1, title := "late", description := "", status := TaskStatus.pending,
    order := 0, required_equipment := [], completed_at := none, created_at := 2 }

/-- C8 counterexample: with the physical row order `[tTieLateW, tTieEarlyW]`
(two tasks of the same job with equal `order`, stored out of creation
order), the `JobTaskViewSet` list read — which orders by `order` alone —
returns the later-created task first, so the listing is not ordered by
`(order, creation time)`: the claimed tie-break does not hold for every
task-listing read. -/
theorem C8_counterexample :
    ¬ creationTieBreakOrdered (viewsetListTasks [tTieLateW, tTieEarlyW]) := by
  intro h
  unfold creationTieBreakOrdered at h
  have hlist : viewsetListTasks [tTieLateW, tTieEarlyW] = [tTieLateW, tTieEarlyW] := rfl
  rw [hlist] at h
  have hrel : metaLe tTieLateW tTieEarlyW := (List.chain'_cons.mp h).1
  unfold metaLe at hrel
  simp [tTieLateW, tTieEarlyW] at hrel

/-- C8 amended: a task listing rendered under the model's default
`Meta.ordering` is a permutation of the rows sorted by `order` ascending
with creation time as tie-break; the `JobTaskViewSet` list read is a
permutation of the rows sorted by `order` ascending only — equal-`order`
ties there carry no creation-time guarantee. -/
theorem C8_task_listing_order (rows : List JobTask) :
    creationTieBreakOrdered (metaOrderedTasks rows)
    ∧ (metaOrderedTasks rows).Perm rows
    ∧ (viewsetListTasks rows).Pairwise orderOnlyLe
    ∧ (viewsetListTasks rows).Perm rows :=
  ⟨List.Pairwise.chain' (List.sorted_insertionSort metaLe rows),
   List.perm_insertionSort metaLe rows,
   List.sorted_insertionSort orderOnlyLe rows,
   List.perm_insertionSort orderOnlyLe rows⟩

end JobOps
